import Mathlib

/-!
Shallow embedding of the `ps-range` library (src/lib.rs): a small range
algebra over a generic, totally ordered index type `Idx`.  The library
consists of

* `OpenRange<Idx>`: a struct with fields `start : Idx` and
  `end : Option<Idx>` (absent end = unbounded above);
* a trait `Range<Idx>` (strict ranges, with a definite exclusive end)
  with provided methods `clamp`, `clamp_left`, `clamp_right`,
  `intersection`, `to_open_range`;
* a trait `PartialRange<Idx>` (possibly unbounded-above ranges) with
  provided methods `clamp`, `clamp_left`, `clamp_right`, `intersection`;
* trait implementations for the native Rust interval types
  (`ops::Range`, `ops::RangeFrom`, `ops::RangeFull`,
  `ops::RangeInclusive`, `ops::RangeTo`, `ops::RangeToInclusive`).

Traits become type classes holding the required accessors; the provided
trait methods become ordinary functions.  The `impl Into<Idx>` bound
conversions are modelled as the identity (both operands share `Idx`).
`usize` arithmetic (`SaturatingAdd` on the default index type) is
modelled on `Nat` with saturation at `USIZE_MAX = 2 ^ 64 - 1`.
-/

namespace PsRange

/-- Models `std::ops::Range<Idx>`: the half-open interval `start..end`. -/
structure OpsRange (Idx : Type) where
  start : Idx
  «end» : Idx
  deriving DecidableEq, Repr

/-- Models `std::ops::RangeFrom<Idx>`: `start..`. -/
structure RangeFrom (Idx : Type) where
  start : Idx
  deriving DecidableEq, Repr

/-- Models `std::ops::RangeFull`: `..`. -/
structure RangeFull where
  deriving DecidableEq, Repr

/-- Models `std::ops::RangeInclusive<Idx>`: `start..=end`. -/
structure RangeInclusive (Idx : Type) where
  start : Idx
  «end» : Idx
  deriving DecidableEq, Repr

/-- Models `std::ops::RangeTo<Idx>`: `..end`. -/
structure RangeTo (Idx : Type) where
  «end» : Idx
  deriving DecidableEq, Repr

/-- Models `std::ops::RangeToInclusive<Idx>`: `..=end`. -/
structure RangeToInclusive (Idx : Type) where
  «end» : Idx
  deriving DecidableEq, Repr

/-- The `OpenRange<Idx>` struct of the library: `start` with an optional
`end` (`none` = unbounded above).  No invariant is imposed on
construction. -/
structure OpenRange (Idx : Type) where
  start : Idx
  «end» : Option Idx
  deriving DecidableEq, Repr

/-- Models the `num_traits::SaturatingAdd` trait bound. -/
class SaturatingAdd (Idx : Type) where
  saturating_add : Idx → Idx → Idx

/-- The required accessors of the `Range<Idx>` trait (strict ranges). -/
class Range (α : Type) (Idx : Type) where
  start : α → Idx
  «end» : α → Idx

/-- The required accessors of the `PartialRange<Idx>` trait. -/
class PartialRange (α : Type) (Idx : Type) where
  start : α → Idx
  «end» : α → Option Idx

/-- `impl<Idx: Clone + Ord> Range<Idx> for ops::Range<Idx>`. -/
instance instRangeOps {Idx : Type} : Range (OpsRange Idx) Idx where
  start r := r.start
  «end» r := r.«end»

/-- `impl<Idx: Clone + Ord> PartialRange<Idx> for ops::Range<Idx>`. -/
instance instPartialRangeOps {Idx : Type} : PartialRange (OpsRange Idx) Idx where
  start r := r.start
  «end» r := some r.«end»

/-- `impl<Idx: Clone + Ord> PartialRange<Idx> for OpenRange<Idx>`. -/
instance instPartialRangeOpen {Idx : Type} : PartialRange (OpenRange Idx) Idx where
  start r := r.start
  «end» r := r.«end»

/-- `impl<Idx: Clone + Ord> PartialRange<Idx> for ops::RangeFrom<Idx>`. -/
instance instPartialRangeFrom {Idx : Type} : PartialRange (RangeFrom Idx) Idx where
  start r := r.start
  «end» _ := none

/-- `impl<Idx: Clone + Ord + Zero> PartialRange<Idx> for ops::RangeFull`. -/
instance instPartialRangeFull {Idx : Type} [Zero Idx] : PartialRange RangeFull Idx where
  start _ := 0
  «end» _ := none

/-- `impl<Idx: Copy + One + Ord + SaturatingAdd> Range<Idx> for ops::RangeInclusive<Idx>`:
the strict end is `self.end().saturating_add(&One::one())`. -/
instance instRangeInclusive {Idx : Type} [One Idx] [SaturatingAdd Idx] :
    Range (RangeInclusive Idx) Idx where
  start r := r.start
  «end» r := SaturatingAdd.saturating_add r.«end» 1

/-- `impl<Idx: Copy + One + Ord + SaturatingAdd> PartialRange<Idx> for ops::RangeInclusive<Idx>`. -/
instance instPartialRangeInclusive {Idx : Type} [One Idx] [SaturatingAdd Idx] :
    PartialRange (RangeInclusive Idx) Idx where
  start r := r.start
  «end» r := some (SaturatingAdd.saturating_add r.«end» 1)

/-- `impl<Idx: Copy + Ord + Zero> Range<Idx> for ops::RangeTo<Idx>`:
the strict start is `Zero::zero()`. -/
instance instRangeTo {Idx : Type} [Zero Idx] : Range (RangeTo Idx) Idx where
  start _ := 0
  «end» r := r.«end»

/-- `impl<Idx: Copy + Ord + Zero> PartialRange<Idx> for ops::RangeTo<Idx>`. -/
instance instPartialRangeTo {Idx : Type} [Zero Idx] : PartialRange (RangeTo Idx) Idx where
  start _ := 0
  «end» r := some r.«end»

/-- `impl<Idx: Clone + One + Ord + SaturatingAdd + Zero> Range<Idx> for RangeToInclusive<Idx>`. -/
instance instRangeToInclusive {Idx : Type} [Zero Idx] [One Idx] [SaturatingAdd Idx] :
    Range (RangeToInclusive Idx) Idx where
  start _ := 0
  «end» r := SaturatingAdd.saturating_add r.«end» 1

/-- `impl<Idx: Clone + One + Ord + SaturatingAdd + Zero> PartialRange<Idx> for RangeToInclusive<Idx>`. -/
instance instPartialRangeToInclusive {Idx : Type} [Zero Idx] [One Idx] [SaturatingAdd Idx] :
    PartialRange (RangeToInclusive Idx) Idx where
  start _ := 0
  «end» r := some (SaturatingAdd.saturating_add r.«end» 1)

/-- Provided method `Range::clamp`:
`let end = self.end().min(end.into()); let start = self.start().max(start.into()).min(end.clone()); start..end`. -/
def Range.clamp {α Idx : Type} [LinearOrder Idx] [Range α Idx]
    (self : α) (start «end» : Idx) : OpsRange Idx :=
  let e := min (Range.«end» self) «end»
  let s := min (max (Range.start self) start) e
  ⟨s, e⟩

/-- Provided method `Range::clamp_left`: `self.clamp(start, self.end())`. -/
def Range.clamp_left {α Idx : Type} [LinearOrder Idx] [Range α Idx]
    (self : α) (start : Idx) : OpsRange Idx :=
  Range.clamp self start (Range.«end» self)

/-- Provided method `Range::clamp_right`: `self.clamp(self.start(), end)`. -/
def Range.clamp_right {α Idx : Type} [LinearOrder Idx] [Range α Idx]
    (self : α) («end» : Idx) : OpsRange Idx :=
  Range.clamp self (Range.start self) «end»

/-- Provided method `Range::intersection`: `self.clamp(other.start(), other.end())`. -/
def Range.intersection {α β Idx : Type} [LinearOrder Idx] [Range α Idx] [Range β Idx]
    (self : α) (other : β) : OpsRange Idx :=
  Range.clamp self (Range.start other) (Range.«end» other)

/-- Provided method `Range::to_open_range`: `OpenRange { start: self.start(), end: Some(self.end()) }`. -/
def Range.to_open_range {α Idx : Type} [Range α Idx] (self : α) : OpenRange Idx :=
  ⟨Range.start self, some (Range.«end» self)⟩

/-- Provided method `PartialRange::clamp`: builds `lhs = start..end` and
`rhs = self.start()..self.end().unwrap_or(end)` and returns
`Range::intersection(&lhs, &rhs)`. -/
def PartialRange.clamp {α Idx : Type} [LinearOrder Idx] [PartialRange α Idx]
    (self : α) (start «end» : Idx) : OpsRange Idx :=
  let lhs_start := start
  let lhs_end := «end»
  let lhs : OpsRange Idx := ⟨lhs_start, lhs_end⟩
  let rhs_start := PartialRange.start self
  let rhs_end := (PartialRange.«end» self).getD lhs_end
  let rhs : OpsRange Idx := ⟨rhs_start, rhs_end⟩
  Range.intersection lhs rhs

/-- Provided method `PartialRange::clamp_left`:
`OpenRange { start: self.start().max(start.into()), end: self.end() }`. -/
def PartialRange.clamp_left {α Idx : Type} [LinearOrder Idx] [PartialRange α Idx]
    (self : α) (start : Idx) : OpenRange Idx :=
  ⟨max (PartialRange.start self) start, PartialRange.«end» self⟩

/-- Provided method `PartialRange::clamp_right`:
`let end = match self.end() { Some(rhs_end) => end.min(rhs_end), None => end };
let start = self.start().min(end); start..end`. -/
def PartialRange.clamp_right {α Idx : Type} [LinearOrder Idx] [PartialRange α Idx]
    (self : α) («end» : Idx) : OpsRange Idx :=
  let e := match (PartialRange.«end» self : Option Idx) with
    | some rhs_end => min «end» rhs_end
    | none => «end»
  let s := min (PartialRange.start self) e
  ⟨s, e⟩

/-- Provided method `PartialRange::intersection`:
`other.end().map_or_else(|| self.clamp_left(other.start()), |end| self.clamp(other.start(), end).to_open_range())`. -/
def PartialRange.intersection {α β Idx : Type} [LinearOrder Idx]
    [PartialRange α Idx] [PartialRange β Idx] (self : α) (other : β) : OpenRange Idx :=
  match (PartialRange.«end» other : Option Idx) with
  | none => PartialRange.clamp_left self (PartialRange.start other)
  | some e => Range.to_open_range (PartialRange.clamp self (PartialRange.start other) e)

/-- `usize::MAX` of the default 64-bit index type. -/
def USIZE_MAX : Nat := 2 ^ 64 - 1

/-- `usize` saturating addition, modelled on `Nat` (representable values
are those `≤ USIZE_MAX`): the sum is capped at `USIZE_MAX`, never wraps. -/
instance instSaturatingAddNat : SaturatingAdd Nat where
  saturating_add a b := min (a + b) USIZE_MAX

/-- The set of indices denoted by a bounded interval `start..end`. -/
def OpsRange.mem {Idx : Type} [LinearOrder Idx] (r : OpsRange Idx) (i : Idx) : Prop :=
  r.start ≤ i ∧ i < r.«end»

/-- The set of indices denoted by an `OpenRange` (no upper constraint when
the end is absent). -/
def OpenRange.mem {Idx : Type} [LinearOrder Idx] (r : OpenRange Idx) (i : Idx) : Prop :=
  r.start ≤ i ∧ match r.«end» with
    | some e => i < e
    | none => True

@[simp] theorem range_start_ops {Idx : Type} (r : OpsRange Idx) : Range.start r = r.start := rfl

@[simp] theorem range_end_ops {Idx : Type} (r : OpsRange Idx) : Range.«end» r = r.«end» := rfl

@[simp] theorem prange_start_ops {Idx : Type} (r : OpsRange Idx) : PartialRange.start r = r.start := rfl

@[simp] theorem prange_end_ops {Idx : Type} (r : OpsRange Idx) : PartialRange.«end» r = some r.«end» := rfl

@[simp] theorem prange_start_open {Idx : Type} (r : OpenRange Idx) : PartialRange.start r = r.start := rfl

@[simp] theorem prange_end_open {Idx : Type} (r : OpenRange Idx) : PartialRange.«end» r = r.«end» := rfl

@[simp] theorem prange_start_from {Idx : Type} (r : RangeFrom Idx) : PartialRange.start r = r.start := rfl

@[simp] theorem prange_end_from {Idx : Type} (r : RangeFrom Idx) : (PartialRange.«end» r : Option Idx) = none := rfl

@[simp] theorem prange_start_full {Idx : Type} [Zero Idx] : PartialRange.start (RangeFull.mk) = (0 : Idx) := rfl

@[simp] theorem prange_end_full {Idx : Type} [Zero Idx] : (PartialRange.«end» (RangeFull.mk) : Option Idx) = none := rfl

/-- `Range::clamp` written out: the end is `min(self.end(), hi)` and the
start is `min(max(self.start(), lo), end)`. -/
theorem range_clamp_eq {α Idx : Type} [LinearOrder Idx] [Range α Idx]
    (self : α) (lo hi : Idx) :
    Range.clamp self lo hi =
      ⟨min (max (Range.start self) lo) (min (Range.«end» self) hi),
        min (Range.«end» self) hi⟩ := rfl

/-- Auxiliary order fact behind idempotence of `Range::clamp`:
re-clamping the clamped start against the same `lo` and `e` is a no-op. -/
theorem min_max_clamp_idem {Idx : Type} [LinearOrder Idx] (a lo e : Idx) :
    min (max (min (max a lo) e) lo) e = min (max a lo) e := by
  rcases le_total (max a lo) e with h | h
  · rw [min_eq_left h, max_assoc, max_self, min_eq_left h]
  · rw [min_eq_right h]
    exact min_eq_right (le_max_left _ _)

/-- `PartialRange::clamp` written out via `Range::intersection` of the
candidate interval with `self.start()..self.end().unwrap_or(hi)`. -/
theorem partial_clamp_eq {α Idx : Type} [LinearOrder Idx] [PartialRange α Idx]
    (self : α) (lo hi : Idx) :
    PartialRange.clamp self lo hi =
      ⟨min (max lo (PartialRange.start self))
          (min hi ((PartialRange.«end» self).getD hi)),
        min hi ((PartialRange.«end» self).getD hi)⟩ := rfl

/-- C1: for every strict (bounded) range value `R` and every pair of bounds
`lo, hi`, `R.clamp(lo, hi)` returns the interval `[start', end')` with
`end' = min(R.end(), hi)` and `start' = min(max(R.start(), lo), end')`, and
this result satisfies `start' ≤ end'` in all cases, including `lo > hi` and
`lo > R.end()`; in particular `3..10` clamped to `(12, 20)` yields `10..10`. -/
theorem claim_C1 :
    (∀ {Idx : Type} [LinearOrder Idx] {α : Type} [Range α Idx] (R : α) (lo hi : Idx),
      Range.clamp R lo hi =
        ⟨min (max (Range.start R) lo) (min (Range.«end» R) hi), min (Range.«end» R) hi⟩
      ∧ (Range.clamp R lo hi).start ≤ (Range.clamp R lo hi).«end»
      ∧ (hi < lo ∨ Range.«end» R < lo →
          (Range.clamp R lo hi).start = (Range.clamp R lo hi).«end»))
    ∧ Range.clamp (⟨3, 10⟩ : OpsRange Nat) 12 20 = ⟨10, 10⟩ := by
  constructor
  · intro Idx _ α _ R lo hi
    refine ⟨rfl, min_le_right _ _, ?_⟩
    intro h
    show min (max (Range.start R) lo) (min (Range.«end» R) hi)
        = min (Range.«end» R) hi
    refine min_eq_right (le_trans ?_ (le_max_right (Range.start R) lo))
    rcases h with h | h
    · exact le_of_lt (lt_of_le_of_lt (min_le_right _ _) h)
    · exact le_of_lt (lt_of_le_of_lt (min_le_left _ _) h)
  · decide

/-- C1 witness: the degenerate case applied at `3..10` clamped to
`(12, 20)`, where `lo = 12` exceeds the range's end `10`. -/
theorem claim_C1_witness :
    ((20 : Nat) < 12 ∨ (Range.«end» (⟨3, 10⟩ : OpsRange Nat) : Nat) < 12)
    ∧ (Range.clamp (⟨3, 10⟩ : OpsRange Nat) 12 20).start
        = (Range.clamp (⟨3, 10⟩ : OpsRange Nat) 12 20).«end» :=
  ⟨Or.inr (by decide),
    (claim_C1.1 (⟨3, 10⟩ : OpsRange Nat) 12 20).2.2 (Or.inr (by decide))⟩

/-- C5: strict-range clamp is idempotent: for every bounded range `R` and
all bounds `lo, hi`, `R.clamp(lo, hi).clamp(lo, hi)` equals `R.clamp(lo, hi)`. -/
theorem claim_C5 {Idx : Type} [LinearOrder Idx] {α : Type} [Range α Idx]
    (R : α) (lo hi : Idx) :
    Range.clamp (Range.clamp R lo hi) lo hi = Range.clamp R lo hi := by
  simp only [range_clamp_eq, range_start_ops, range_end_ops]
  have he : min (min (Range.«end» R) hi) hi = min (Range.«end» R) hi := by
    rw [min_assoc, min_self]
  rw [he, min_max_clamp_idem]

/-- C7: for every bound `b`, the to-range adapter `..b` has strict start
equal to the index type's zero element, regardless of `b`. -/
theorem claim_C7 {Idx : Type} [Zero Idx] (b : Idx) :
    Range.start (RangeTo.mk b) = (0 : Idx) := rfl

/-- C9: for every native interval form that implements both the strict-range
and the partial-range capability (bounded `a..b`, inclusive `a..=b`, to `..b`,
to-inclusive `..=b`), the two capabilities agree: the partial-range `start()`
equals the strict-range `start()`, and the partial-range `end()` equals
`Some` of the strict-range `end()`. -/
theorem claim_C9 {Idx : Type} [Zero Idx] [One Idx] [SaturatingAdd Idx] (a b : Idx) :
    (PartialRange.start (OpsRange.mk a b) = (Range.start (OpsRange.mk a b) : Idx)
      ∧ PartialRange.«end» (OpsRange.mk a b) = some (Range.«end» (OpsRange.mk a b) : Idx))
    ∧ (PartialRange.start (RangeInclusive.mk a b) = (Range.start (RangeInclusive.mk a b) : Idx)
      ∧ PartialRange.«end» (RangeInclusive.mk a b) = some (Range.«end» (RangeInclusive.mk a b) : Idx))
    ∧ (PartialRange.start (RangeTo.mk b) = (Range.start (RangeTo.mk b) : Idx)
      ∧ PartialRange.«end» (RangeTo.mk b) = some (Range.«end» (RangeTo.mk b) : Idx))
    ∧ (PartialRange.start (RangeToInclusive.mk b) = (Range.start (RangeToInclusive.mk b) : Idx)
      ∧ PartialRange.«end» (RangeToInclusive.mk b) = some (Range.«end» (RangeToInclusive.mk b) : Idx)) :=
  ⟨⟨rfl, rfl⟩, ⟨rfl, rfl⟩, ⟨rfl, rfl⟩, ⟨rfl, rfl⟩⟩

/-- C10: strict-range intersection is commutative at the representation
level: for every pair of bounded ranges `R = a..b` and `S = c..d` over the
same index type, `R.intersection(S)` and `S.intersection(R)` are the
identical bounded interval value. -/
theorem claim_C10 {Idx : Type} [LinearOrder Idx] (R S : OpsRange Idx) :
    (Range.intersection R S : OpsRange Idx) = Range.intersection S R := by
  unfold Range.intersection
  simp only [range_clamp_eq, range_start_ops, range_end_ops]
  rw [min_comm S.«end» R.«end», max_comm S.start R.start]

/-- C2 counterexample: `PartialRange::clamp_left` does not re-clamp the
start against the stored end.  On the well-formed input
`OpenRange { start: 0, end: Some(3) }` with `lo = 5` it returns
`OpenRange { start: 5, end: Some(3) }`, whose start `5` exceeds its
`Some` end `3`, refuting the claim that every produced `OpenRange` has
`start ≤ end`. -/
theorem claim_C2_counterexample :
    PartialRange.clamp_left (OpenRange.mk 0 (some 3) : OpenRange Nat) 5
      = OpenRange.mk 5 (some 3)
    ∧ ¬ ((5 : Nat) ≤ 3) := by decide

/-- C2 (amended): the operations that clamp against an upper bound always
produce `start ≤ end`: `Range::clamp` (hence its derived `clamp_left`,
`clamp_right` and `intersection`), `PartialRange::clamp`,
`PartialRange::clamp_right`, and `PartialRange::intersection` with a
bounded other operand (its end is then always `Some` and bounds its
start).  `PartialRange::clamp_left`, by contrast, only tightens the lower
bound: it returns `OpenRange { start: max(self.start(), lo), end: self.end() }`
without comparing the new start to the end, so its output may have
`start > end`. -/
theorem claim_C2 :
    (∀ {Idx : Type} [LinearOrder Idx] {α : Type} [Range α Idx] (self : α) (lo hi : Idx),
      (Range.clamp self lo hi).start ≤ (Range.clamp self lo hi).«end»)
    ∧ (∀ {Idx : Type} [LinearOrder Idx] {α : Type} [PartialRange α Idx] (self : α) (lo hi : Idx),
      (PartialRange.clamp self lo hi).start ≤ (PartialRange.clamp self lo hi).«end»)
    ∧ (∀ {Idx : Type} [LinearOrder Idx] {α : Type} [PartialRange α Idx] (self : α) (hi : Idx),
      (PartialRange.clamp_right self hi).start ≤ (PartialRange.clamp_right self hi).«end»)
    ∧ (∀ {Idx : Type} [LinearOrder Idx] {α : Type} [PartialRange α Idx]
        (self : α) (other : OpsRange Idx),
      ∃ e, (PartialRange.intersection self other : OpenRange Idx).«end» = some e
        ∧ (PartialRange.intersection self other : OpenRange Idx).start ≤ e)
    ∧ (∀ {Idx : Type} [LinearOrder Idx] {α : Type} [PartialRange α Idx] (self : α) (lo : Idx),
      PartialRange.clamp_left self lo
        = OpenRange.mk (max (PartialRange.start self : Idx) lo)
            (PartialRange.«end» self : Option Idx)) := by
  refine ⟨?_, ?_, ?_, ?_, ?_⟩
  · intro Idx _ α _ self lo hi
    exact min_le_right _ _
  · intro Idx _ α _ self lo hi
    exact min_le_right _ _
  · intro Idx _ α _ self hi
    exact min_le_right _ _
  · intro Idx _ α _ self other
    exact ⟨_, rfl, min_le_right _ _⟩
  · intro Idx _ α _ self lo
    rfl

/-- C6: the inclusive adapters convert the inclusive upper bound `b` via
saturating increment: on the (64-bit `usize`) index type, the strict end of
`a..=b` and of `..=b` equals `b + 1` when `b < USIZE_MAX` and stays at
`USIZE_MAX` (no overflow or wrap) when `b = USIZE_MAX`. -/
theorem claim_C6 (a b : Nat) (hb : b ≤ USIZE_MAX) :
    (Range.«end» (RangeInclusive.mk a b) : Nat)
        = (if b < USIZE_MAX then b + 1 else USIZE_MAX)
    ∧ (Range.«end» (RangeToInclusive.mk b) : Nat)
        = (if b < USIZE_MAX then b + 1 else USIZE_MAX) := by
  have h : min (b + 1) USIZE_MAX = if b < USIZE_MAX then b + 1 else USIZE_MAX := by
    split <;> omega
  exact ⟨h, h⟩

/-- C6 witness: the theorem applied at the concrete inclusive ranges
`3..=5` and `..=5`. -/
theorem claim_C6_witness :
    (5 : Nat) ≤ USIZE_MAX
    ∧ ((Range.«end» (RangeInclusive.mk (3 : Nat) 5) : Nat)
          = (if (5 : Nat) < USIZE_MAX then 5 + 1 else USIZE_MAX)
      ∧ (Range.«end» (RangeToInclusive.mk (5 : Nat)) : Nat)
          = (if (5 : Nat) < USIZE_MAX then 5 + 1 else USIZE_MAX)) :=
  ⟨by decide, claim_C6 3 5 (by decide)⟩

/-- C8: for every partial-range value `self` and bound `hi`,
`self.clamp_right(hi)` returns the bounded interval `[start', end')` where
`end' = min(e, hi)` if `self.end()` is `Some(e)` and `end' = hi` if
`self.end()` is `None`, and `start' = min(self.start(), end')`. -/
theorem claim_C8 {Idx : Type} [LinearOrder Idx] {α : Type} [PartialRange α Idx]
    (self : α) (hi : Idx) :
    (PartialRange.clamp_right self hi).«end»
      = (match (PartialRange.«end» self : Option Idx) with
          | some e => min e hi
          | none => hi)
    ∧ (PartialRange.clamp_right self hi).start
      = min (PartialRange.start self) (PartialRange.clamp_right self hi).«end» := by
  constructor
  · show (match (PartialRange.«end» self : Option Idx) with
        | some rhs_end => min hi rhs_end
        | none => hi)
      = (match (PartialRange.«end» self : Option Idx) with
        | some e => min e hi
        | none => hi)
    rcases PartialRange.«end» self with _ | e
    · rfl
    · exact min_comm hi e
  · rfl

/-- C3: for every partial-range value `self` and every other partial-range
value `other`: if `other.end()` is absent, `self.intersection(other)`
equals `self.clamp_left(other.start())` and its end is `None` exactly when
`self`'s end is `None`; if `other.end()` is `Some(e)`,
`self.intersection(other)` equals
`self.clamp(other.start(), e).to_open_range()` and its end is always
`Some`; in particular `(..).intersection(5..)` is an `OpenRange` with
start `5` and end `None`. -/
theorem claim_C3 :
    (∀ {Idx : Type} [LinearOrder Idx] {α β : Type} [PartialRange α Idx] [PartialRange β Idx]
      (self : α) (other : β),
      ((PartialRange.«end» other : Option Idx) = none →
        (PartialRange.intersection self other : OpenRange Idx)
            = PartialRange.clamp_left self (PartialRange.start other)
        ∧ ((PartialRange.intersection self other : OpenRange Idx).«end» = none
            ↔ (PartialRange.«end» self : Option Idx) = none))
      ∧ (∀ e : Idx, (PartialRange.«end» other : Option Idx) = some e →
        (PartialRange.intersection self other : OpenRange Idx)
            = Range.to_open_range (PartialRange.clamp self (PartialRange.start other) e)
        ∧ ∃ e2, (PartialRange.intersection self other : OpenRange Idx).«end» = some e2))
    ∧ (PartialRange.intersection RangeFull.mk (RangeFrom.mk (5 : Nat)) : OpenRange Nat)
        = OpenRange.mk 5 none := by
  constructor
  · intro Idx _ α β _ _ self other
    constructor
    · intro h
      have hres : (PartialRange.intersection self other : OpenRange Idx)
          = PartialRange.clamp_left self (PartialRange.start other) := by
        unfold PartialRange.intersection
        rw [h]
      refine ⟨hres, ?_⟩
      rw [hres]
      exact Iff.rfl
    · intro e h
      have hres : (PartialRange.intersection self other : OpenRange Idx)
          = Range.to_open_range (PartialRange.clamp self (PartialRange.start other) e) := by
        unfold PartialRange.intersection
        rw [h]
      refine ⟨hres, ?_⟩
      rw [hres]
      exact ⟨_, rfl⟩
  · decide

/-- C3 witness: the none-end branch applied to
`{start: 1, end: Some(4)}.intersection(2..)` and the some-end branch
applied to the spec example `{start: 5, end: None}.intersection(2..9)`. -/
theorem claim_C3_witness :
    (PartialRange.«end» (RangeFrom.mk (2 : Nat)) : Option Nat) = none
    ∧ ((PartialRange.intersection (OpenRange.mk 1 (some 4) : OpenRange Nat)
          (RangeFrom.mk (2 : Nat)) : OpenRange Nat)
        = PartialRange.clamp_left (OpenRange.mk 1 (some 4) : OpenRange Nat) 2
      ∧ ((PartialRange.intersection (OpenRange.mk 1 (some 4) : OpenRange Nat)
            (RangeFrom.mk (2 : Nat)) : OpenRange Nat).«end» = none
          ↔ (PartialRange.«end» (OpenRange.mk 1 (some 4) : OpenRange Nat) : Option Nat) = none))
    ∧ (PartialRange.«end» (OpsRange.mk (2 : Nat) 9) : Option Nat) = some 9
    ∧ ((PartialRange.intersection (OpenRange.mk 5 none : OpenRange Nat)
          (OpsRange.mk (2 : Nat) 9) : OpenRange Nat)
        = Range.to_open_range (PartialRange.clamp (OpenRange.mk 5 none : OpenRange Nat) 2 9)
      ∧ ∃ e2, (PartialRange.intersection (OpenRange.mk 5 none : OpenRange Nat)
          (OpsRange.mk (2 : Nat) 9) : OpenRange Nat).«end» = some e2) :=
  ⟨rfl, (claim_C3.1 _ _).1 rfl, rfl, (claim_C3.1 _ _).2 9 rfl⟩

/-- `Range::intersection` is commutative for any two strict-range values
over the same index type (both components of the result are symmetric
`min`/`max` expressions). -/
theorem range_intersection_comm {Idx : Type} [LinearOrder Idx] {α β : Type}
    [Range α Idx] [Range β Idx] (R : α) (S : β) :
    (Range.intersection R S : OpsRange Idx) = Range.intersection S R := by
  unfold Range.intersection
  simp only [range_clamp_eq]
  rw [min_comm (Range.«end» S) (Range.«end» R), max_comm (Range.start S) (Range.start R)]

/-- `PartialRange::intersection` against an unbounded `other` reduces to
`clamp_left`, keeping `self`'s end. -/
theorem partial_intersection_none {Idx : Type} [LinearOrder Idx] {α β : Type}
    [PartialRange α Idx] [PartialRange β Idx] (R : α) (S : β)
    (h : (PartialRange.«end» S : Option Idx) = none) :
    (PartialRange.intersection R S : OpenRange Idx)
      = ⟨max (PartialRange.start R) (PartialRange.start S), PartialRange.«end» R⟩ := by
  unfold PartialRange.intersection
  rw [h]
  rfl

/-- `PartialRange::intersection` against a bounded `other` reduces to the
`to_open_range` of the bounded clamp. -/
theorem partial_intersection_some {Idx : Type} [LinearOrder Idx] {α β : Type}
    [PartialRange α Idx] [PartialRange β Idx] (R : α) (S : β) (se : Idx)
    (h : (PartialRange.«end» S : Option Idx) = some se) :
    (PartialRange.intersection R S : OpenRange Idx)
      = ⟨min (max (PartialRange.start S) (PartialRange.start R))
            (min se ((PartialRange.«end» R).getD se)),
          some (min se ((PartialRange.«end» R).getD se))⟩ := by
  unfold PartialRange.intersection
  rw [h]
  rfl

/-- Order fact for the mixed open/bounded intersection case: below the
common end `e`, pre-truncating the lower bound `m` by `e` is invisible. -/
theorem mem_min_max_iff {Idx : Type} [LinearOrder Idx] (m e i : Idx) :
    (min m e ≤ i ∧ i < e) ↔ (m ≤ i ∧ i < e) := by
  constructor
  · rintro ⟨h1, h2⟩
    refine ⟨?_, h2⟩
    rcases min_cases m e with ⟨heq, _⟩ | ⟨heq, _⟩
    · rwa [heq] at h1
    · rw [heq] at h1
      exact absurd h2 (not_lt.mpr h1)
  · rintro ⟨h1, h2⟩
    exact ⟨le_trans (min_le_left _ _) h1, h2⟩

/-- C4: intersection is order-independent at the level of the denoted
index set: for every pair of range values `R` and `S` (strict or partial,
over the same index type), the set of indices contained in
`R.intersection(S)` equals the set of indices contained in
`S.intersection(R)`, even though the two results may differ in
representation. -/
theorem claim_C4 :
    (∀ {Idx : Type} [LinearOrder Idx] {α β : Type} [Range α Idx] [Range β Idx]
      (R : α) (S : β) (i : Idx),
      (Range.intersection R S : OpsRange Idx).mem i
        ↔ (Range.intersection S R : OpsRange Idx).mem i)
    ∧ (∀ {Idx : Type} [LinearOrder Idx] {α β : Type} [PartialRange α Idx] [PartialRange β Idx]
      (R : α) (S : β) (i : Idx),
      (PartialRange.intersection R S : OpenRange Idx).mem i
        ↔ (PartialRange.intersection S R : OpenRange Idx).mem i) := by
  constructor
  · intro Idx _ α β _ _ R S i
    rw [range_intersection_comm R S]
  · intro Idx _ α β _ _ R S i
    rcases hR : (PartialRange.«end» R : Option Idx) with _ | re
      <;> rcases hS : (PartialRange.«end» S : Option Idx) with _ | se
    · rw [partial_intersection_none R S hS, partial_intersection_none S R hR, hR, hS,
        max_comm (PartialRange.start R) (PartialRange.start S)]
    · rw [partial_intersection_some R S se hS, partial_intersection_none S R hR, hR, hS]
      simp only [OpenRange.mem, Option.getD_none, min_self]
      exact mem_min_max_iff _ _ i
    · rw [partial_intersection_none R S hS, partial_intersection_some S R re hR, hR, hS]
      simp only [OpenRange.mem, Option.getD_none, min_self]
      exact (mem_min_max_iff _ _ i).symm
    · rw [partial_intersection_some R S se hS, partial_intersection_some S R re hR, hR, hS]
      simp only [Option.getD_some]
      rw [min_comm re se, max_comm (PartialRange.start R) (PartialRange.start S)]

end PsRange
